import Mathlib

/-!
Verification of the drawing core of `js-lib/state-controller.js`
(asciiflow2): the orthogonal line renderer `drawLine`, the four drawing
strategies (`DrawBox`, `DrawLine`, `DrawFreeform`, `DrawMove`) and the
dispatcher `ascii.StateController`.

The grid collaborator (`ascii.State`) and the 2D point type
(`ascii.Vector`) are external to the file under verification; they are
modelled here from the specification.  Effectful calls on the state
(`clearDraw`, `drawSpecial`, `setValue`, `commitDraw`) are embedded as
traces: each mutating procedure of the source is translated to a pure
function returning the ordered list of state operations it performs.
-/

/-- Modelled from the spec: the external `ascii.Vector` collaborator, an
immutable 2D integer point with addition and equality (`clone` is the
identity in a pure setting). -/
structure Vec where
  x : Int
  y : Int
deriving DecidableEq, Repr

/-- Vector addition, as `ascii.Vector.add`. -/
def Vec.add (a b : Vec) : Vec := ⟨a.x + b.x, a.y + b.y⟩

/-- Modelled from the spec: `ascii.Vector.length` (magnitude) is used by the
source only to test for the zero vector, so we embed that test directly:
`length() == 0` holds exactly when both components are zero. -/
def Vec.isZero (a : Vec) : Bool := a.x == 0 && a.y == 0

/-- The point reached from `p` after `k` unit steps in direction `d`. -/
def Vec.addScaled (p d : Vec) (k : Nat) : Vec :=
  ⟨p.x + (k : Int) * d.x, p.y + (k : Int) * d.y⟩

/-- Modelled from the spec: the external per-cell `Context`, four booleans
telling whether the neighbor in each direction is a special character. -/
structure Context where
  left : Bool
  right : Bool
  up : Bool
  down : Bool
deriving DecidableEq, Repr

/-- The "straight run" test of `DrawMove.prototype.followLine`: the cell
continues a straight line, i.e. `(left && right && !up && !down) ||
(!left && !right && up && down)`.  The source returns from the tracing
loop exactly when this is false. -/
def Context.straight (c : Context) : Bool :=
  (c.left && c.right && !c.up && !c.down) ||
  (!c.left && !c.right && c.up && c.down)

/-- The neighbor count `context.left + context.right + context.up +
context.down` computed (via boolean-to-number coercion) in
`DrawMove.prototype.start`. -/
def Context.count (c : Context) : Nat :=
  (if c.left then 1 else 0) + (if c.right then 1 else 0) +
  (if c.up then 1 else 0) + (if c.down then 1 else 0)

/-- The read-only face of the `ascii.State` collaborator used by the
strategies: `isSpecial` and `getContext`. -/
structure GridState where
  isSpecial : Vec → Bool
  getContext : Vec → Context

/-- Modelled from the spec: a concrete `ascii.State` built from a finite
list of special cells, the per-cell `Context` being derived on demand from
the four neighbors' specialness (spec section 3, "Context"). `up` is the
neighbor at `y - 1`, `down` at `y + 1`. -/
def mkState (special : List Vec) : GridState where
  isSpecial p := special.contains p
  getContext p :=
    { left := special.contains ⟨p.x - 1, p.y⟩
      right := special.contains ⟨p.x + 1, p.y⟩
      up := special.contains ⟨p.x, p.y - 1⟩
      down := special.contains ⟨p.x, p.y + 1⟩ }

/-- One effectful call on the `ascii.State` collaborator, in the order the
source issues them. -/
inductive StateOp where
  | clearDraw : StateOp
  | drawSpecial : Vec → StateOp
  | setValue : Vec → Option Char → StateOp
  | commitDraw : StateOp
deriving DecidableEq, Repr

/-- The preview (draft) buffer semantics of the state operations:
`clearDraw` empties the buffer of previewed special cells, `drawSpecial`
appends one, the other operations leave the preview buffer unchanged. -/
def runDraft : List StateOp → List Vec → List Vec
  | [], draft => draft
  | StateOp.clearDraw :: rest, _ => runDraft rest []
  | StateOp.drawSpecial v :: rest, draft => runDraft rest (draft ++ [v])
  | StateOp.setValue _ _ :: rest, draft => runDraft rest draft
  | StateOp.commitDraw :: rest, draft => runDraft rest draft

/-- The horizontal scan of `drawLine`: `while (hX1++ < hX2)
state.drawSpecial(new Vector(hX1, hY))`.  The post-increment loop draws
the cells with x coordinate `x1 + 1, x1 + 2, ..., x2`, in that order. -/
def hScan (x1 x2 y : Int) : List Vec :=
  (List.range (x2 - x1).toNat).map (fun i : Nat => ⟨x1 + (i : Int) + 1, y⟩)

/-- The vertical scan of `drawLine`: `while (vY1++ < vY2)
state.drawSpecial(new Vector(vX, vY1))`, drawing the cells with y
coordinate `y1 + 1, ..., y2` in order. -/
def vScan (y1 y2 x : Int) : List Vec :=
  (List.range (y2 - y1).toNat).map (fun i : Nat => ⟨x, y1 + (i : Int) + 1⟩)

/-- The corner cell `new Vector(vX, hY)` of `drawLine`. -/
def drawLineCorner (startPosition endPosition : Vec) (clockwise : Bool) : Vec :=
  ⟨if clockwise then endPosition.x else startPosition.x,
   if clockwise then startPosition.y else endPosition.y⟩

/-- Embedding of the top-level function `drawLine(state, startPosition,
endPosition, clockwise)`: the ordered list of cells passed to
`state.drawSpecial` — the horizontal scan at row `hY`, then the vertical
scan at column `vX`, then `startPosition`, `endPosition` and the corner
`(vX, hY)`. -/
def drawLine (startPosition endPosition : Vec) (clockwise : Bool) : List Vec :=
  let hX1 := min startPosition.x endPosition.x
  let vY1 := min startPosition.y endPosition.y
  let hX2 := max startPosition.x endPosition.x
  let vY2 := max startPosition.y endPosition.y
  let hY := if clockwise then startPosition.y else endPosition.y
  let vX := if clockwise then endPosition.x else startPosition.x
  hScan hX1 hX2 hY ++ vScan vY1 vY2 vX ++
    [startPosition, endPosition, drawLineCorner startPosition endPosition clockwise]

/-- Trace of `DrawBox.prototype.move(position)`: `clearDraw`, then the two
`drawLine` calls with `clockwise` true and false between the recorded
anchor `startPosition` and `position`. -/
def DrawBox.moveTrace (startPosition position : Vec) : List StateOp :=
  StateOp.clearDraw ::
    ((drawLine startPosition position true).map StateOp.drawSpecial ++
     (drawLine startPosition position false).map StateOp.drawSpecial)

/-- The orientation inference of `DrawLine.prototype.move`: `clockwise =
(startContext.up && startContext.down) || (endContext.left &&
endContext.right)`. -/
def DrawLine.moveClockwise (st : GridState) (startPosition position : Vec) : Bool :=
  let startContext := st.getContext startPosition
  let endContext := st.getContext position
  (startContext.up && startContext.down) || (endContext.left && endContext.right)

/-- Trace of `DrawLine.prototype.move(position)`: `clearDraw`, then one
`drawLine` call with the inferred orientation. -/
def DrawLine.moveTrace (st : GridState) (startPosition position : Vec) : List StateOp :=
  StateOp.clearDraw ::
    (drawLine startPosition position (DrawLine.moveClockwise st startPosition position)).map
      StateOp.drawSpecial

/-- Trace of `DrawFreeform.prototype.move(position)`: a single direct
`setValue(position, value)` call on the state (no clear, no preview). -/
def DrawFreeform.moveTrace (position : Vec) (value : Option Char) : List StateOp :=
  [StateOp.setValue position value]

/-- Trace of `DrawFreeform.prototype.start(position)`: identical to its
`move`, a single direct `setValue`. -/
def DrawFreeform.startTrace (position : Vec) (value : Option Char) : List StateOp :=
  [StateOp.setValue position value]

/-- One end found by the Move strategy: `{position, clockwise}` as pushed
onto `ends` in `DrawMove.prototype.start`. -/
structure DrawEnd where
  position : Vec
  clockwise : Bool
deriving DecidableEq, Repr

/-- Embedding of `DrawMove.prototype.followLine(startPosition, direction)`.
The unbounded `while (true)` loop of the source is given explicit fuel;
`none` means the fuel ran out (on the finite grids of the application the
loop always terminates).  Each iteration: if the next cell is not special,
return the current cell; otherwise advance to it, and if its context is no
longer straight, return it (the corner/branch cell itself). -/
def DrawMove.followLine (st : GridState) : Nat → Vec → Vec → Option Vec
  | 0, _, _ => none
  | fuel + 1, endPosition, direction =>
    let nextEnd := endPosition.add direction
    if st.isSpecial nextEnd then
      if Context.straight (st.getContext nextEnd) then
        DrawMove.followLine st fuel nextEnd direction
      else some nextEnd
    else some endPosition

/-- The fixed direction list `[(1,0), (-1,0), (0,1), (0,-1)]` iterated by
`DrawMove.prototype.start`, in source order. -/
def directions : List Vec := [⟨1, 0⟩, ⟨-1, 0⟩, ⟨0, 1⟩, ⟨0, -1⟩]

/-- Sequencing of fallible steps over a list, used to embed the source's
`for` loops whose bodies call the fuelled `followLine`: the whole loop
fails only if some `followLine` call ran out of fuel. -/
def optionTraverse {α β : Type} (f : α → Option β) : List α → Option (List β)
  | [] => some []
  | a :: as =>
    Option.bind (f a) fun b =>
      Option.bind (optionTraverse f as) fun bs => some (b :: bs)

/-- One iteration of the inner `for (var j in directions)` loop of
`DrawMove.prototype.start`, from the midpoint reached by original
direction `di`: `some none` when the iteration pushes nothing (the
back-direction skip `directions[i].add(directions[j]).length() == 0`, or
`followLine` made no progress), `some (some e)` when it pushes the end
`e`, and `none` when the fuelled `followLine` gave out. -/
def DrawMove.innerEnd (st : GridState) (fuel : Nat) (midPoint di : Vec)
    (clockwise : Bool) (dj : Vec) : Option (Option DrawEnd) :=
  if (di.add dj).isZero then some none
  else
    match DrawMove.followLine st fuel midPoint dj with
    | none => none
    | some e => if midPoint = e then some none else some (some ⟨e, clockwise⟩)

/-- The ends pushed by one iteration of the outer `for (var i in
directions)` loop of `DrawMove.prototype.start`, for original direction
`di`: nothing when `followLine` made no progress; a single end at the
midpoint when the midpoint's context has exactly one special neighbor (a
dead end); otherwise the ends collected by the inner loop over all four
directions minus the skips. `clockwise` is `directions[i].x != 0`. -/
def DrawMove.endsForDir (st : GridState) (fuel : Nat) (position di : Vec) :
    Option (List DrawEnd) :=
  match DrawMove.followLine st fuel position di with
  | none => none
  | some midPoint =>
    if position = midPoint then some []
    else
      let clockwise := di.x != 0
      if (st.getContext midPoint).count = 1 then some [⟨midPoint, clockwise⟩]
      else
        match optionTraverse (DrawMove.innerEnd st fuel midPoint di clockwise) directions with
        | none => none
        | some l => some l.reduceOption

/-- Embedding of `DrawMove.prototype.start(position)`: the list `ends`
stored for the gesture, concatenating the pushes of the four outer-loop
iterations in source order. -/
def DrawMove.start (st : GridState) (fuel : Nat) (position : Vec) :
    Option (List DrawEnd) :=
  match optionTraverse (DrawMove.endsForDir st fuel position) directions with
  | none => none
  | some ls => some ls.flatten

/-- Trace of `DrawMove.prototype.move(position)`: `clearDraw`, then one
`drawLine` call from `position` to each recorded end with that end's
stored `clockwise` flag, in order. -/
def DrawMove.moveTrace (ends : List DrawEnd) (position : Vec) : List StateOp :=
  StateOp.clearDraw ::
    (ends.flatMap fun e => (drawLine position e.position e.clockwise).map StateOp.drawSpecial)

/-- The active drawing strategy held by the dispatcher, together with its
gesture-scoped state: `DrawBox` and `DrawLine` hold the recorded anchor
(`null` before any `start`), `DrawFreeform` holds its glyph (`null` for
erase), `DrawMove` holds the recorded `ends` (`null` before `start`; in
this embedding also `none` if the fuelled trace gave out). -/
inductive Strategy where
  | box : Option Vec → Strategy
  | line : Option Vec → Strategy
  | freeform : Option Char → Strategy
  | move : Option (List DrawEnd) → Strategy
deriving DecidableEq, Repr

/-- The drawing strategy installed by the `ascii.StateController`
constructor: `this.drawFunction = new DrawBox(state)`, whose
`startPosition` field is initialized to `null`. -/
def StateController.init : Strategy := Strategy.box none

/-- Dispatch of `handleDrawingPress` to the active strategy's `start`,
returning the updated strategy state and the operations performed.
Gesture anchors are recorded; `DrawFreeform.start` stamps its glyph;
`DrawMove.start` computes and stores its ends. -/
def StateController.handleDrawingPress (st : GridState) (fuel : Nat) :
    Strategy → Vec → Strategy × List StateOp
  | Strategy.box _, p => (Strategy.box (some p), [])
  | Strategy.line _, p => (Strategy.line (some p), [])
  | Strategy.freeform v, p => (Strategy.freeform v, DrawFreeform.startTrace p v)
  | Strategy.move _, p => (Strategy.move (DrawMove.start st fuel p), [])

/-- Dispatch of `handleDrawingMove` to the active strategy's `move`.
Calling `move` before any `start` (anchor still `null`) is undefined
behavior in the source (spec section 7) and is embedded as an empty
trace. -/
def StateController.handleDrawingMove (st : GridState) :
    Strategy → Vec → Strategy × List StateOp
  | Strategy.box a, p =>
    (Strategy.box a,
     match a with
     | none => []
     | some startPosition => DrawBox.moveTrace startPosition p)
  | Strategy.line a, p =>
    (Strategy.line a,
     match a with
     | none => []
     | some startPosition => DrawLine.moveTrace st startPosition p)
  | Strategy.freeform v, p => (Strategy.freeform v, DrawFreeform.moveTrace p v)
  | Strategy.move ends, p =>
    (Strategy.move ends,
     match ends with
     | none => []
     | some es => DrawMove.moveTrace es p)

/-- Dispatch of `handleDrawingRelease` to the active strategy's `end`:
`commitDraw` for Box, Line and Move; a no-op for Freeform. -/
def StateController.handleDrawingRelease : Strategy → Vec → List StateOp
  | Strategy.box _, _ => [StateOp.commitDraw]
  | Strategy.line _, _ => [StateOp.commitDraw]
  | Strategy.freeform _, _ => []
  | Strategy.move _, _ => [StateOp.commitDraw]

/-- The cells at `p + i * d` for `a ≤ i ≤ b` are all special and all have a
straight context: the line-tracing invariant of `followLine`. -/
def straightRun (st : GridState) (p d : Vec) (a b : Nat) : Prop :=
  ∀ i : Nat, a ≤ i → i ≤ b →
    st.isSpecial (p.addScaled d i) = true ∧
    Context.straight (st.getContext (p.addScaled d i)) = true

/-- The 3-wide horizontal special run at row 5, columns 2 through 4, of the
spec's Move scenario. -/
def run3 : List Vec := [⟨2, 5⟩, ⟨3, 5⟩, ⟨4, 5⟩]

/-- The grid state of the Move scenario: exactly the cells of `run3` are
special. -/
def st4 : GridState := mkState run3

/-- A grid whose special cells form a horizontal line at row 0, columns 0
through 4, crossed by a vertical line at column 2, rows -2 through 2: the
midpoint (2,0) reached from (0,0) is a four-way branch. -/
def crossSpecial : List Vec :=
  [⟨0, 0⟩, ⟨1, 0⟩, ⟨2, 0⟩, ⟨3, 0⟩, ⟨4, 0⟩, ⟨2, -2⟩, ⟨2, -1⟩, ⟨2, 1⟩, ⟨2, 2⟩]

/-- The grid state built from `crossSpecial`. -/
def crossSt : GridState := mkState crossSpecial

/-- The ends computed by `DrawMove.start` on `crossSt` from pivot (0,0):
three ends, all contributed by the single original direction (1,0). -/
def crossEnds : List DrawEnd := [⟨⟨4, 0⟩, true⟩, ⟨⟨2, 2⟩, true⟩, ⟨⟨2, -2⟩, true⟩]

/-- The grid of the Line-strategy scenario: a vertical line passing through
the anchor (0,0), so the anchor's context has `up` and `down` set. -/
def st7 : GridState := mkState [⟨0, -1⟩, ⟨0, 1⟩]

/-- Running a pure sequence of `drawSpecial` calls appends exactly the drawn
cells to the preview buffer. -/
theorem runDraft_map_drawSpecial (l draft : List Vec) :
    runDraft (l.map StateOp.drawSpecial) draft = draft ++ l := by
  induction l generalizing draft with
  | nil => simp [runDraft]
  | cons a t ih => simp [runDraft, ih]

/-- C5: for every `startPosition`, `endPosition` and `clockwise` flag,
`drawLine` marks its corner at `(vX, hY)`: the last cell it draws is
`(endPosition.x, startPosition.y)` when `clockwise` is true, and
`(startPosition.x, endPosition.y)` when it is false. -/
theorem C5_drawLine_corner (s e : Vec) :
    (drawLine s e true).getLast? = some ⟨e.x, s.y⟩ ∧
    (drawLine s e false).getLast? = some ⟨s.x, e.y⟩ := by
  constructor <;> simp [drawLine, drawLineCorner]

/-- C3 counterexample: the claim includes the Freeform strategy, but
`DrawFreeform.prototype.move` issues a direct `setValue` mutation and never
calls `clearDraw`: its trace at position (1,1) with glyph 'O' is a single
`setValue` operation, with no `clearDraw` anywhere in it. -/
theorem C3_counterexample :
    DrawFreeform.moveTrace ⟨1, 1⟩ (some 'O') =
      [StateOp.setValue ⟨1, 1⟩ (some 'O')] ∧
    StateOp.clearDraw ∉ DrawFreeform.moveTrace ⟨1, 1⟩ (some 'O') := by
  decide

/-- C3 amended: the Box, Line and Move strategies each begin their `move`
trace with a `clearDraw`, so the previous preview is cleared before any
drawing mutation of the new preview; the Freeform strategy's `move` is a
single direct `setValue` with no `clearDraw` (an immediate, non-previewed
mutation). -/
theorem C3_amended_clear_before_draw (st : GridState) (a p : Vec)
    (ends : List DrawEnd) (v : Option Char) :
    (DrawBox.moveTrace a p).head? = some StateOp.clearDraw ∧
    (DrawLine.moveTrace st a p).head? = some StateOp.clearDraw ∧
    (DrawMove.moveTrace ends p).head? = some StateOp.clearDraw ∧
    DrawFreeform.moveTrace p v = [StateOp.setValue p v] :=
  ⟨rfl, rfl, rfl, rfl⟩

/-- C10: immediately after construction, before any mode-selection event,
the `StateController`'s active strategy is the Box strategy with no anchor;
a press-move-release gesture performed in that state records the press
position as anchor, draws the box preview between it and the move
position, and commits on release. -/
theorem C10_initial_strategy_box (st : GridState) (fuel : Nat) (p q r : Vec) :
    StateController.init = Strategy.box none ∧
    (StateController.handleDrawingPress st fuel StateController.init p).1 =
      Strategy.box (some p) ∧
    (StateController.handleDrawingMove st
      (StateController.handleDrawingPress st fuel StateController.init p).1 q).2 =
      DrawBox.moveTrace p q ∧
    StateController.handleDrawingRelease
      (StateController.handleDrawingMove st
        (StateController.handleDrawingPress st fuel StateController.init p).1 q).1 r =
      [StateOp.commitDraw] :=
  ⟨rfl, rfl, rfl, rfl⟩

/-- C9: for every anchor `a` and drag point `p`, the Box strategy's `move`
clears the preview (whatever the previous draft was, the resulting draft
does not depend on it) and marks exactly the union of the cells of
`drawLine a p true` and `drawLine a p false`. -/
theorem C9_box_marks_union (draft : List Vec) (a p : Vec) :
    runDraft (DrawBox.moveTrace a p) draft =
      drawLine a p true ++ drawLine a p false ∧
    ∀ q : Vec,
      q ∈ runDraft (DrawBox.moveTrace a p) draft ↔
        (q ∈ drawLine a p true ∨ q ∈ drawLine a p false) := by
  have h : runDraft (DrawBox.moveTrace a p) draft =
      drawLine a p true ++ drawLine a p false := by
    simp [DrawBox.moveTrace, runDraft, ← List.map_append, runDraft_map_drawSpecial]
  exact ⟨h, fun q => by simp [h]⟩

/-- C6 counterexample: the claim says the horizontal scan marks only cells
with x strictly between the bounds, but with `startPosition = (0,0)` and
`endPosition = (2,0)` (so `hX1 = 0`, `hX2 = 2`) the scan draws the cell
(2,0), whose x coordinate equals the upper bound `hX2` and is not strictly
below it. -/
theorem C6_counterexample :
    (⟨2, 0⟩ : Vec) ∈ hScan 0 2 0 ∧ ¬((0 : Int) < 2 ∧ (2 : Int) < 2) := by
  decide

/-- C6 amended: the horizontal scan marks exactly the cells at row `hY`
whose x coordinate is strictly greater than `hX1` and at most `hX2`
(inclusive of the upper bound, exclusive of the lower), the vertical scan
likewise for `vY1 < y ≤ vY2`; the two scans are emitted before the two
endpoints and the corner point. -/
theorem C6_amended_scan_bounds :
    (∀ x1 x2 y : Int, ∀ p : Vec,
      p ∈ hScan x1 x2 y ↔ p.y = y ∧ x1 < p.x ∧ p.x ≤ x2) ∧
    (∀ y1 y2 x : Int, ∀ p : Vec,
      p ∈ vScan y1 y2 x ↔ p.x = x ∧ y1 < p.y ∧ p.y ≤ y2) ∧
    (∀ s e : Vec, ∀ cw : Bool,
      drawLine s e cw =
        hScan (min s.x e.x) (max s.x e.x) (if cw then s.y else e.y) ++
          vScan (min s.y e.y) (max s.y e.y) (if cw then e.x else s.x) ++
          [s, e, drawLineCorner s e cw]) := by
  refine ⟨?_, ?_, fun s e cw => rfl⟩
  · intro x1 x2 y p
    obtain ⟨px, py⟩ := p
    dsimp only
    constructor
    · intro h
      obtain ⟨i, hi, hfi⟩ := List.mem_map.1 h
      rw [List.mem_range] at hi
      injection hfi with hx hy
      refine ⟨hy.symm, ?_, ?_⟩ <;> omega
    · rintro ⟨hy, h1, h2⟩
      refine List.mem_map.2 ⟨(px - x1 - 1).toNat, List.mem_range.2 (by omega), ?_⟩
      simp only [Vec.mk.injEq]
      omega
  · intro y1 y2 x p
    obtain ⟨px, py⟩ := p
    dsimp only
    constructor
    · intro h
      obtain ⟨i, hi, hfi⟩ := List.mem_map.1 h
      rw [List.mem_range] at hi
      injection hfi with hx hy
      refine ⟨hx.symm, ?_, ?_⟩ <;> omega
    · rintro ⟨hx, h1, h2⟩
      refine List.mem_map.2 ⟨(py - y1 - 1).toNat, List.mem_range.2 (by omega), ?_⟩
      simp only [Vec.mk.injEq]
      omega

/-- C7: the Line strategy's `move` computes `clockwise` as true exactly
when the anchor's context has both `up` and `down` set or the current
point's context has both `left` and `right` set, and draws one orthogonal
line with that orientation; in the spec scenario (vertical line through
the anchor (0,0), drag point (3,0)) `clockwise` evaluates true and the
rendered corner is `(endPosition.x, startPosition.y) = (3,0)`. -/
theorem C7_line_orientation :
    (∀ st : GridState, ∀ a p : Vec,
      (DrawLine.moveClockwise st a p = true ↔
        (((st.getContext a).up && (st.getContext a).down) = true ∨
         ((st.getContext p).left && (st.getContext p).right) = true)) ∧
      DrawLine.moveTrace st a p =
        StateOp.clearDraw ::
          (drawLine a p (DrawLine.moveClockwise st a p)).map StateOp.drawSpecial) ∧
    DrawLine.moveClockwise st7 ⟨0, 0⟩ ⟨3, 0⟩ = true ∧
    (drawLine ⟨0, 0⟩ ⟨3, 0⟩ (DrawLine.moveClockwise st7 ⟨0, 0⟩ ⟨3, 0⟩)).getLast? =
      some ⟨3, 0⟩ := by
  refine ⟨fun st a p => ⟨?_, rfl⟩, by decide, by decide⟩
  simp [DrawLine.moveClockwise]

/-- C8: both orientations of `drawLine` mark the two endpoints and their
respective corner point, and on degenerate inputs (shared column or shared
row) the two orientations mark exactly the same set of cells. -/
theorem C8_drawLine_endpoints_degenerate (A B : Vec) :
    (∀ cw : Bool,
      A ∈ drawLine A B cw ∧ B ∈ drawLine A B cw ∧
      drawLineCorner A B cw ∈ drawLine A B cw) ∧
    ((A.x = B.x ∨ A.y = B.y) →
      ∀ p : Vec, p ∈ drawLine A B true ↔ p ∈ drawLine A B false) := by
  constructor
  · intro cw
    refine ⟨?_, ?_, ?_⟩ <;> simp [drawLine]
  · obtain ⟨ax, ay⟩ := A
    obtain ⟨bx, byy⟩ := B
    rintro (hx | hy) p
    · dsimp only at hx
      subst hx
      simp only [drawLine, drawLineCorner, hScan, List.mem_append, List.mem_cons,
        List.not_mem_nil, min_self, max_self, sub_self, Int.toNat_zero, List.range_zero,
        List.map_nil, if_true, if_false, Bool.false_eq_true]
      tauto
    · dsimp only at hy
      subst hy
      simp only [drawLine, drawLineCorner, vScan, List.mem_append, List.mem_cons,
        List.not_mem_nil, min_self, max_self, sub_self, Int.toNat_zero, List.range_zero,
        List.map_nil, if_true, if_false, Bool.false_eq_true]
      tauto

/-- Stepping zero times stays put. -/
theorem Vec.addScaled_zero (p d : Vec) : p.addScaled d 0 = p := by
  cases p
  simp [Vec.addScaled]

/-- Stepping once is a single vector addition. -/
theorem Vec.addScaled_one (p d : Vec) : p.addScaled d 1 = p.add d := by
  simp [Vec.addScaled, Vec.add]

/-- Stepping `k` times from `p + d` is stepping `k + 1` times from `p`. -/
theorem Vec.add_addScaled (p d : Vec) (k : Nat) :
    (p.add d).addScaled d k = p.addScaled d (k + 1) := by
  simp only [Vec.add, Vec.addScaled, Vec.mk.injEq]
  constructor <;> push_cast <;> ring

/-- Prepending one special straight cell to a straight run. -/
theorem straightRun_extend (st : GridState) (p d : Vec) (m : Nat)
    (h1 : st.isSpecial (p.add d) = true)
    (h2 : Context.straight (st.getContext (p.add d)) = true)
    (hrun : straightRun st (p.add d) d 1 m) :
    straightRun st p d 1 (m + 1) := by
  intro i hi1 hile
  obtain ⟨j, rfl⟩ : ∃ j, i = j + 1 := ⟨i - 1, by omega⟩
  rcases Nat.eq_zero_or_pos j with rfl | hj
  · simp only [Nat.zero_add, Vec.addScaled_one]
    exact ⟨h1, h2⟩
  · rw [← Vec.add_addScaled]
    exact hrun j hj (by omega)

/-- C1: whenever the fuelled `followLine` returns a result `r` from start
`p` in direction `d`, it has stepped some number `k` of cells in direction
`d` through cells that are special with a straight context, and it stopped
in exactly one of the two source ways: either the cell after `r` is not
special (so `r` is the last straight cell, or `p` itself if no progress
was made), or `r` itself is special with a non-straight context — a
branch/corner returned as the stopping point rather than silently
crossed, every cell strictly before it being special and straight. -/
theorem C1_followLine_straight_trace (st : GridState) (fuel : Nat) (p d r : Vec)
    (h : DrawMove.followLine st fuel p d = some r) :
    ∃ k : Nat, r = p.addScaled d k ∧
      ((straightRun st p d 1 k ∧ st.isSpecial (p.addScaled d (k + 1)) = false) ∨
       (1 ≤ k ∧ straightRun st p d 1 (k - 1) ∧
        st.isSpecial (p.addScaled d k) = true ∧
        Context.straight (st.getContext (p.addScaled d k)) = false)) := by
  induction fuel generalizing p r with
  | zero => simp [DrawMove.followLine] at h
  | succ n ih =>
    rw [DrawMove.followLine] at h
    cases hsp : st.isSpecial (p.add d) with
    | false =>
      simp only [hsp, Bool.false_eq_true, if_false, Option.some.injEq] at h
      subst h
      refine ⟨0, (Vec.addScaled_zero p d).symm, Or.inl ⟨?_, ?_⟩⟩
      · intro i hi1 hile
        omega
      · rw [Nat.zero_add, Vec.addScaled_one]
        exact hsp
    | true =>
      simp only [hsp, if_true] at h
      cases hstr : Context.straight (st.getContext (p.add d)) with
      | false =>
        simp only [hstr, Bool.false_eq_true, if_false, Option.some.injEq] at h
        subst h
        refine ⟨1, (Vec.addScaled_one p d).symm, Or.inr ⟨Nat.le_refl 1, ?_, ?_, ?_⟩⟩
        · intro i hi1 hile
          omega
        · rw [Vec.addScaled_one]
          exact hsp
        · rw [Vec.addScaled_one]
          exact hstr
      | true =>
        simp only [hstr, if_true] at h
        obtain ⟨k, hr, hcase⟩ := ih (p.add d) r h
        rw [Vec.add_addScaled] at hr
        refine ⟨k + 1, hr, ?_⟩
        rcases hcase with ⟨hrun, hnsp⟩ | ⟨hk1, hrun, hspk, hstrk⟩
        · refine Or.inl ⟨straightRun_extend st p d k hsp hstr hrun, ?_⟩
          rw [← Vec.add_addScaled]
          exact hnsp
        · refine Or.inr ⟨by omega, ?_, ?_, ?_⟩
          · have hext := straightRun_extend st p d (k - 1) hsp hstr hrun
            have heq : k - 1 + 1 = k := by omega
            rw [heq] at hext
            have heq2 : k + 1 - 1 = k := by omega
            rw [heq2]
            exact hext
          · rw [← Vec.add_addScaled]
            exact hspk
          · rw [← Vec.add_addScaled]
            exact hstrk

/-- C1 witness: on the 3-wide horizontal run, tracing from (2,5) in
direction (1,0) returns (4,5), and the characterization holds there. -/
theorem C1_witness :
    ∃ k : Nat, (⟨4, 5⟩ : Vec) = Vec.addScaled ⟨2, 5⟩ ⟨1, 0⟩ k ∧
      ((straightRun st4 ⟨2, 5⟩ ⟨1, 0⟩ 1 k ∧
        st4.isSpecial (Vec.addScaled ⟨2, 5⟩ ⟨1, 0⟩ (k + 1)) = false) ∨
       (1 ≤ k ∧ straightRun st4 ⟨2, 5⟩ ⟨1, 0⟩ 1 (k - 1) ∧
        st4.isSpecial (Vec.addScaled ⟨2, 5⟩ ⟨1, 0⟩ k) = true ∧
        Context.straight (st4.getContext (Vec.addScaled ⟨2, 5⟩ ⟨1, 0⟩ k)) = false)) :=
  C1_followLine_straight_trace st4 10 ⟨2, 5⟩ ⟨1, 0⟩ ⟨4, 5⟩ (by decide)

/-- Success of a fallible traversal of the four-direction list is success
on each direction, collecting the four results in order. -/
theorem optionTraverse_directions {β : Type} (g : Vec → Option β) (l : List β)
    (h : optionTraverse g directions = some l) :
    ∃ b0 b1 b2 b3, g ⟨1, 0⟩ = some b0 ∧ g ⟨-1, 0⟩ = some b1 ∧
      g ⟨0, 1⟩ = some b2 ∧ g ⟨0, -1⟩ = some b3 ∧ l = [b0, b1, b2, b3] := by
  simp only [directions, optionTraverse, Option.bind_eq_some, Option.some.injEq] at h
  obtain ⟨b0, h0, rest, ⟨b1, h1, rest1, ⟨b2, h2, rest2, ⟨b3, h3, rest3, h4, e3⟩, e2⟩, e1⟩,
    e0⟩ := h
  subst h4
  subst e3
  subst e2
  subst e1
  subst e0
  exact ⟨b0, b1, b2, b3, h0, h1, h2, h3, rfl⟩

/-- A four-entry option list with at least one `none` keeps at most three
entries after dropping the `none`s. -/
theorem reduceOption_four_le (b0 b1 b2 b3 : Option DrawEnd)
    (h : b0 = none ∨ b1 = none ∨ b2 = none ∨ b3 = none) :
    ([b0, b1, b2, b3].reduceOption).length ≤ 3 := by
  cases b0 <;> cases b1 <;> cases b2 <;> cases b3 <;>
    simp_all [List.reduceOption]

/-- The inner loop of `DrawMove.start` always skips the direction opposite
to the first hop, so one original direction contributes at most three
ends. -/
theorem endsForDir_length_le (st : GridState) (fuel : Nat) (pos di : Vec)
    (hdi : di ∈ directions) (l : List DrawEnd)
    (h : DrawMove.endsForDir st fuel pos di = some l) : l.length ≤ 3 := by
  rw [DrawMove.endsForDir] at h
  cases hf : DrawMove.followLine st fuel pos di with
  | none => rw [hf] at h; exact absurd h (by simp)
  | some midPoint =>
    rw [hf] at h
    by_cases hpm : pos = midPoint
    · simp only [hpm, if_true, Option.some.injEq] at h
      subst h
      simp
    · simp only [hpm, if_false] at h
      by_cases hc : (st.getContext midPoint).count = 1
      · simp only [hc, if_true, Option.some.injEq] at h
        subst h
        simp
      · simp only [hc, if_false] at h
        cases ht : optionTraverse
            (DrawMove.innerEnd st fuel midPoint di (di.x != 0)) directions with
        | none => rw [ht] at h; exact absurd h (by simp)
        | some l' =>
          rw [ht] at h
          simp only [Option.some.injEq] at h
          subst h
          obtain ⟨b0, b1, b2, b3, h0, h1, h2, h3, rfl⟩ :=
            optionTraverse_directions _ _ ht
          simp only [directions, List.mem_cons, List.not_mem_nil, or_false] at hdi
          rcases hdi with rfl | rfl | rfl | rfl
          · have hskip : DrawMove.innerEnd st fuel midPoint ⟨1, 0⟩
                ((⟨1, 0⟩ : Vec).x != 0) ⟨-1, 0⟩ = some none := rfl
            rw [hskip] at h1
            exact reduceOption_four_le b0 b1 b2 b3
              (Or.inr (Or.inl (Option.some.injEq .. ▸ h1.symm)))
          · have hskip : DrawMove.innerEnd st fuel midPoint ⟨-1, 0⟩
                ((⟨-1, 0⟩ : Vec).x != 0) ⟨1, 0⟩ = some none := rfl
            rw [hskip] at h0
            exact reduceOption_four_le b0 b1 b2 b3
              (Or.inl (Option.some.injEq .. ▸ h0.symm))
          · have hskip : DrawMove.innerEnd st fuel midPoint ⟨0, 1⟩
                ((⟨0, 1⟩ : Vec).x != 0) ⟨0, -1⟩ = some none := rfl
            rw [hskip] at h3
            exact reduceOption_four_le b0 b1 b2 b3
              (Or.inr (Or.inr (Or.inr (Option.some.injEq .. ▸ h3.symm))))
          · have hskip : DrawMove.innerEnd st fuel midPoint ⟨0, -1⟩
                ((⟨0, -1⟩ : Vec).x != 0) ⟨0, 1⟩ = some none := rfl
            rw [hskip] at h2
            exact reduceOption_four_le b0 b1 b2 b3
              (Or.inr (Or.inr (Or.inl (Option.some.injEq .. ▸ h2.symm))))

/-- C2 counterexample: on the crossing grid, pivot (0,0): the only
original direction that makes progress is (1,0), whose trace stops at the
four-way branch (2,0); the branch exploration then contributes three
DrawEnds for that single original direction — not "one or two". -/
theorem C2_counterexample :
    DrawMove.start crossSt 20 ⟨0, 0⟩ = some crossEnds ∧
    DrawMove.endsForDir crossSt 20 ⟨0, 0⟩ ⟨1, 0⟩ = some crossEnds ∧
    DrawMove.followLine crossSt 20 ⟨0, 0⟩ ⟨1, 0⟩ = some ⟨2, 0⟩ ∧
    (⟨2, 0⟩ : Vec) ≠ ⟨0, 0⟩ ∧
    DrawMove.endsForDir crossSt 20 ⟨0, 0⟩ ⟨-1, 0⟩ = some [] ∧
    DrawMove.endsForDir crossSt 20 ⟨0, 0⟩ ⟨0, 1⟩ = some [] ∧
    DrawMove.endsForDir crossSt 20 ⟨0, 0⟩ ⟨0, -1⟩ = some [] ∧
    crossEnds.length = 3 ∧ ¬(crossEnds.length ≤ 2) := by
  decide

/-- C2 amended: whenever `DrawMove.start` computes its `ends`, the list
holds between 0 and 12 entries, with zero to three entries contributed per
original axis direction (a dead-end midpoint contributes exactly one; a
branch midpoint contributes at most three, because the exploration loop
excludes only the exact opposite of the first-hop direction). -/
theorem C2_move_start_bounds (st : GridState) (fuel : Nat) (pos : Vec)
    (ends : List DrawEnd) (h : DrawMove.start st fuel pos = some ends) :
    ends.length ≤ 12 ∧
    ∀ di ∈ directions, ∀ l : List DrawEnd,
      DrawMove.endsForDir st fuel pos di = some l → l.length ≤ 3 := by
  constructor
  · rw [DrawMove.start] at h
    cases ht : optionTraverse (DrawMove.endsForDir st fuel pos) directions with
    | none => rw [ht] at h; exact absurd h (by simp)
    | some ls =>
      rw [ht] at h
      simp only [Option.some.injEq] at h
      subst h
      obtain ⟨l0, l1, l2, l3, h0, h1, h2, h3, rfl⟩ :=
        optionTraverse_directions _ _ ht
      have e0 := endsForDir_length_le st fuel pos ⟨1, 0⟩ (by simp [directions]) l0 h0
      have e1 := endsForDir_length_le st fuel pos ⟨-1, 0⟩ (by simp [directions]) l1 h1
      have e2 := endsForDir_length_le st fuel pos ⟨0, 1⟩ (by simp [directions]) l2 h2
      have e3 := endsForDir_length_le st fuel pos ⟨0, -1⟩ (by simp [directions]) l3 h3
      simp only [List.flatten, List.length_append, List.length_nil]
      omega
  · intro di hdi l hl
    exact endsForDir_length_le st fuel pos di hdi l hl

/-- C2 witness: the amended bound applied to the crossing grid, where
`DrawMove.start` from (0,0) computes exactly the three ends. -/
theorem C2_witness :
    DrawMove.start crossSt 20 ⟨0, 0⟩ = some crossEnds ∧ crossEnds.length ≤ 12 :=
  ⟨by decide, (C2_move_start_bounds crossSt 20 ⟨0, 0⟩ crossEnds (by decide)).1⟩

/-- C4: on the grid whose special cells are the 3-wide horizontal run at
row 5, columns 2 through 4, the Context at the left end (2,5) has only
`right` set; `DrawMove.start` from (2,5) yields exactly one DrawEnd, at
(4,5) with `clockwise = true`; `DrawMove.move` at (2,8) then clears and
issues exactly the cells of `drawLine((2,8),(4,5),true)`, whose corner —
the bend, and the last cell drawn — is (4,8). -/
theorem C4_move_scenario :
    st4.getContext ⟨2, 5⟩ = ⟨false, true, false, false⟩ ∧
    DrawMove.start st4 10 ⟨2, 5⟩ = some [⟨⟨4, 5⟩, true⟩] ∧
    DrawMove.moveTrace [⟨⟨4, 5⟩, true⟩] ⟨2, 8⟩ =
      StateOp.clearDraw :: (drawLine ⟨2, 8⟩ ⟨4, 5⟩ true).map StateOp.drawSpecial ∧
    drawLineCorner ⟨2, 8⟩ ⟨4, 5⟩ true = ⟨4, 8⟩ ∧
    (drawLine ⟨2, 8⟩ ⟨4, 5⟩ true).getLast? = some ⟨4, 8⟩ := by
  decide

/-- C8 witness: the degenerate-case equality instantiated at the concrete
shared-column endpoints (0,0) and (0,2) and the probe cell (0,1). -/
theorem C8_witness :
    ((⟨0, 0⟩ : Vec).x = (⟨0, 2⟩ : Vec).x ∨ (⟨0, 0⟩ : Vec).y = (⟨0, 2⟩ : Vec).y) ∧
    ((⟨0, 1⟩ : Vec) ∈ drawLine ⟨0, 0⟩ ⟨0, 2⟩ true ↔
      (⟨0, 1⟩ : Vec) ∈ drawLine ⟨0, 0⟩ ⟨0, 2⟩ false) :=
  ⟨Or.inl rfl, (C8_drawLine_endpoints_degenerate ⟨0, 0⟩ ⟨0, 2⟩).2 (Or.inl rfl) ⟨0, 1⟩⟩
